import Mathlib

/-!
Shallow embedding of `src/qmetaobject/src/future.rs`: the Qt-event-loop
executor for Rust futures (the C++ `Waker` shim, its `RawWakerVTable`,
`execute_async`, `poll_with_qt_waker`) and the signal-wait future
(`ConnectionFuture` inside `wait_on_signal`).
-/

namespace QtFuture

/-- Outcome of one poll of the boxed future (`Poll::Pending` / `Poll::Ready`). -/
inductive PollResult
  | pending
  | ready
  deriving DecidableEq

/-- Waker-vtable operations that the polled future (or another thread holding a
waker handle) may perform while a poll of the future is in progress:
`wakeM` calls `Waker::wake`, `cloneM` is the vtable clone (`s->ref++`),
`dropM` is the vtable drop (`s->deref()`). -/
inductive MidAction
  | wakeM
  | cloneM
  | dropM
  deriving DecidableEq

/-- State of one C++ `Waker` object together with observation counters.
`woken`, `completed`, `ref` are the fields of the C++ struct
(`bool woken = false; bool completed = false; QAtomicInt ref = 0;`);
`pending` counts `QEvent::User` events posted via `QApplication::postEvent`
and not yet delivered; `destroyed` records that `deleteLater` ran
(the destructor drops the boxed future); `deallocs` counts how many times
`Box::from_raw(future)` was dropped; `polls` counts polls of the boxed
future; `readySeen` records that some poll returned `Poll::Ready`. -/
structure WakerState where
  woken : Bool
  completed : Bool
  ref : Int
  pending : Nat
  destroyed : Bool
  deallocs : Nat
  polls : Nat
  readySeen : Bool
  deriving DecidableEq

/-- `Waker::wake`: `if (woken) return; woken = true; postEvent(this, User);` -/
def wake (s : WakerState) : WakerState :=
  if s.woken then s else { s with woken := true, pending := s.pending + 1 }

/-- The vtable clone entry: `s->ref++` and the same `Waker*` is returned. -/
def cloneW (s : WakerState) : WakerState :=
  { s with ref := s.ref + 1 }

/-- `Waker::deref`: `if (!--ref) deleteLater();` — the destructor drops the
boxed future. -/
def derefW (s : WakerState) : WakerState :=
  { s with
      ref := s.ref - 1,
      destroyed := if s.ref - 1 = 0 then true else s.destroyed,
      deallocs := if s.ref - 1 = 0 then s.deallocs + 1 else s.deallocs }

/-- Effect of one mid-poll waker operation. -/
def midStep (s : WakerState) : MidAction → WakerState
  | MidAction.wakeM => wake s
  | MidAction.cloneM => cloneW s
  | MidAction.dropM => derefW s

/-- `Poll::is_ready()`. -/
def PollResult.isReady : PollResult → Bool
  | PollResult.ready => true
  | PollResult.pending => false

/-- `poll_with_qt_waker`: `waker->ref++`, build the context waker, poll the
future once (`mid` are the waker operations the poll performs, `res` its
result), then the local `std::task::Waker` is dropped at the end of the
function, which runs the vtable drop entry, i.e. `deref()`.
Returns the final state and `is_ready()`. -/
def pollWithQtWaker (mid : List MidAction) (res : PollResult) (s : WakerState) :
    WakerState × Bool :=
  let s1 := cloneW s
  let s2 := List.foldl midStep s1 mid
  let s3 := { s2 with
                polls := s2.polls + 1,
                readySeen := s2.readySeen || res.isReady }
  (derefW s3, res.isReady)

/-- Tail of `customEvent` after the poll: `completed = poll_with_qt_waker(...);
if (completed) deref();`. -/
def pollReact (pr : WakerState × Bool) : WakerState :=
  if pr.2 then derefW { pr.1 with completed := true } else pr.1

/-- `Waker::customEvent`, triggered by delivery of one posted `QEvent::User`
(so it runs only when an event is pending): `woken = false; if (completed)
return; completed = poll_with_qt_waker(...); if (completed) deref();`
(`woken` is cleared first, before the `completed` check and the poll; since
clearing `woken` does not change `completed`, the guard is written here as a
test on the incoming state). -/
def customEvent (mid : List MidAction) (res : PollResult) (s : WakerState) :
    WakerState :=
  if s.pending = 0 then s
  else if s.completed then { s with pending := s.pending - 1, woken := false }
  else
    pollReact
      (pollWithQtWaker mid res { s with pending := s.pending - 1, woken := false })

/-- `execute_async`: box the future, `new Waker` with `w->ref++` (so `ref = 1`),
transfer the boxed future in, and perform the first synchronous poll via
`poll_with_qt_waker` — whose result is discarded, exactly as in the source. -/
def executeAsync (mid : List MidAction) (res : PollResult) : WakerState :=
  let s0 : WakerState :=
    { woken := false, completed := false, ref := 1, pending := 0,
      destroyed := false, deallocs := 0, polls := 0, readySeen := false }
  (pollWithQtWaker mid res s0).1

/-- External events driving a spawned task: the four `QTWAKERVTABLE` entries
invoked on some outstanding waker handle (`wakeRefS` = wake-by-ref,
`wakeValS` = wake-by-value which wakes then derefs, `cloneS`, `dropS`) and
`deliver`, the Qt loop delivering one posted event to `customEvent`. -/
inductive Step
  | wakeRefS
  | wakeValS
  | cloneS
  | dropS
  | deliver (mid : List MidAction) (res : PollResult)

/-- One external step acting on the shim state. -/
def step (s : WakerState) : Step → WakerState
  | Step.wakeRefS => wake s
  | Step.wakeValS => derefW (wake s)
  | Step.cloneS => cloneW s
  | Step.dropS => derefW s
  | Step.deliver mid res => customEvent mid res s

/-- Run a sequence of external steps. -/
def run (s : WakerState) (tr : List Step) : WakerState :=
  List.foldl step s tr

/-! ### Signal-wait future (`wait_on_signal` / `ConnectionFuture`)

`sender` and `signal` are opaque (modelled as numbers), as is the payload type
`P` standing for `<Args as SignalArgArrayToTuple>::Tuple`; waker handles are
likewise opaque identifiers. -/

/-- One live registration in the Connection Registry: its opaque
`ConnectionHandle` id and the `(sender, signal)` pair it is bound to. -/
structure Registration where
  id : Nat
  sender : Nat
  signal : Nat
  deriving DecidableEq

/-- Modelled from the spec: the Connection Registry (`crate::connections`,
whose source is not under `src/`) — it holds live registrations, hands out
opaque handles on `connect`, and `disconnect` is idempotent removal. -/
structure Registry where
  nextId : Nat
  live : List Registration
  deriving DecidableEq

/-- Modelled from the spec: `connect(source, event-descriptor, callback) ->
ConnectionHandle` registers one callback and returns a fresh valid handle. -/
def Registry.connect (r : Registry) (sender signal : Nat) : Registry × Nat :=
  ({ nextId := r.nextId + 1,
     live := { id := r.nextId, sender := sender, signal := signal } :: r.live },
   r.nextId)

/-- Modelled from the spec: `ConnectionHandle::disconnect()`, idempotent,
removes the registration with that handle. -/
def Registry.disconnect (r : Registry) (h : Nat) : Registry :=
  { r with live := r.live.filter (fun x => x.id != h) }

/-- `ConnectionFutureState<Args>`: `Init { sender, signal }`,
`Started { handle, waker }`, `Finished { result }`, `Invalid`. -/
inductive CFState (P : Type)
  | init (sender signal : Nat)
  | started (handle : Nat) (waker : Nat)
  | finished (result : P)
  | invalid

/-- Result of `ConnectionFuture::poll`. -/
inductive CFPoll (P : Type)
  | ready (v : P)
  | pending

/-- Whether a poll result is `Ready`. -/
def CFPoll.isReady {P : Type} : CFPoll P → Bool
  | CFPoll.ready _ => true
  | CFPoll.pending => false

/-- Observable side effects of the slot callback, in order. -/
inductive Effect
  | disconnected (h : Nat)
  | woke (w : Nat)
  deriving DecidableEq

/-- `ConnectionFuture::poll` with current waker handle `w`: the state is
`mem::replace`d with `Invalid`; `Finished` returns `Ready(result)` early
(leaving `Invalid` in place); `Init` calls `connect` and becomes
`Started { handle, waker: ctx.waker().clone() }`; `Started` is put back
unchanged; `Invalid` hits `unreachable` (the final `Bool` flags that). -/
def cfPoll {P : Type} (st : CFState P) (reg : Registry) (w : Nat) :
    CFState P × Registry × CFPoll P × Bool :=
  match st with
  | CFState.finished v => (CFState.invalid, reg, CFPoll.ready v, false)
  | CFState.init sd sg =>
      let rc := reg.connect sd sg
      (CFState.started rc.2 w, rc.1, CFPoll.pending, false)
  | CFState.started h wk => (CFState.started h wk, reg, CFPoll.pending, false)
  | CFState.invalid => (CFState.invalid, reg, CFPoll.pending, true)

/-- `Slot::apply` for `*mut ConnectionFutureState`: the state is
`mem::replace`d with `Finished { result: args_array_to_tuple(a) }`; if it was
`Started { handle, waker }` then `handle.disconnect(); waker.wake();` (in that
order, recorded in the effect list); otherwise `unreachable` (the final
`Bool`). -/
def cfApply {P : Type} (st : CFState P) (reg : Registry) (v : P) :
    CFState P × Registry × List Effect × Bool :=
  match st with
  | CFState.started h wk =>
      (CFState.finished v, reg.disconnect h,
       [Effect.disconnected h, Effect.woke wk], false)
  | _ => (CFState.finished v, reg, [], true)

/-- `impl Drop for ConnectionFuture`: disconnect iff the state is `Started`. -/
def cfDrop {P : Type} (st : CFState P) (reg : Registry) : Registry :=
  match st with
  | CFState.started h _ => reg.disconnect h
  | _ => reg

/-- A world for the signal-wait lifecycle: the future's state (`none` once the
future has been dropped), the registry, whether a poll has returned `Ready`,
and whether an `unreachable` branch was ever reached. -/
structure World (P : Type) where
  fut : Option (CFState P)
  reg : Registry
  readyReturned : Bool
  bad : Bool

/-- Operations on a signal-wait future: a poll with a given current waker, an
emission of the awaited signal with a payload, and dropping the future. -/
inductive CFOp (P : Type)
  | pollOp (w : Nat)
  | emitOp (v : P)
  | dropOp

/-- Whether an operation is a poll. -/
def CFOp.isPoll {P : Type} : CFOp P → Bool
  | CFOp.pollOp _ => true
  | _ => false

/-- One lifecycle step. A poll or drop acts on the future if it still exists.
Modelled from the spec for the emission: the registry invokes the registered
callback (the slot pointing at this future's state) only while a registration
is live, once per occurrence, until disconnected. -/
def cfStep {P : Type} (w : World P) : CFOp P → World P
  | CFOp.pollOp wk =>
      match w.fut with
      | none => w
      | some st =>
          let r := cfPoll st w.reg wk
          { fut := some r.1, reg := r.2.1,
            readyReturned := w.readyReturned || r.2.2.1.isReady,
            bad := w.bad || r.2.2.2 }
  | CFOp.emitOp v =>
      match w.fut with
      | none => w
      | some st =>
          if w.reg.live.isEmpty then w
          else
            let r := cfApply st w.reg v
            { w with fut := some r.1, reg := r.2.1, bad := w.bad || r.2.2.2 }
  | CFOp.dropOp =>
      match w.fut with
      | none => w
      | some st => { w with fut := none, reg := cfDrop st w.reg }

/-- Run a sequence of lifecycle operations. -/
def cfRun {P : Type} (w : World P) (ops : List (CFOp P)) : World P :=
  List.foldl cfStep w ops

/-- The world right after `wait_on_signal` returns: the future is in `Init`
and it has no registration in the registry. -/
def initWorld (P : Type) (sd sg n : Nat) : World P :=
  { fut := some (CFState.init sd sg), reg := { nextId := n, live := [] },
    readyReturned := false, bad := false }

/-- A trace is valid when the future is never polled again after some poll
returned `Ready` (the executor contract assumed by the claim). -/
def validFrom {P : Type} (w : World P) : List (CFOp P) → Bool
  | [] => true
  | op :: rest =>
      (!op.isPoll || !w.readyReturned) && validFrom (cfStep w op) rest

/-- Lifecycle invariant tying the future's state to the registry: a `Started`
future owns every live registration (all carry its handle); in every other
state (including after drop) no registration is live; and `Invalid` can be
left behind only after a poll has returned `Ready`. -/
def handleInv {P : Type} (w : World P) : Prop :=
  match w.fut with
  | some (CFState.init _ _) => w.reg.live = []
  | some (CFState.started h _) => w.reg.live ≠ [] ∧ ∀ x ∈ w.reg.live, x.id = h
  | some (CFState.finished _) => w.reg.live = []
  | some CFState.invalid => w.reg.live = [] ∧ w.readyReturned = true
  | none => w.reg.live = []

/-- Full world invariant: no `unreachable` branch was reached and the
registration bookkeeping of `handleInv` holds. -/
def WorldInv {P : Type} (w : World P) : Prop :=
  w.bad = false ∧ handleInv w

/-- A sample shim state with one posted, undelivered notification. -/
def sampleBusy : WakerState :=
  { woken := true, completed := false, ref := 2, pending := 1,
    destroyed := false, deallocs := 0, polls := 3, readySeen := false }

/-- A sample shim state with no posted notification and `woken` clear. -/
def sampleIdle : WakerState :=
  { woken := false, completed := false, ref := 2, pending := 0,
    destroyed := false, deallocs := 0, polls := 1, readySeen := false }

/-! ### Helper lemmas about the Wake Shim -/

theorem wake_of_woken (t : WakerState) (h : t.woken = true) : wake t = t := by
  simp [wake, h]

theorem wake_completed (t : WakerState) : (wake t).completed = t.completed := by
  unfold wake; split <;> rfl

theorem wake_polls (t : WakerState) : (wake t).polls = t.polls := by
  unfold wake; split <;> rfl

theorem wake_ref (t : WakerState) : (wake t).ref = t.ref := by
  unfold wake; split <;> rfl

theorem wake_pending_le (t : WakerState) : t.pending ≤ (wake t).pending := by
  unfold wake; split
  · exact le_refl _
  · exact Nat.le_succ _

theorem wake_iterate (s : WakerState) (h : s.woken = false) (k : Nat) :
    wake^[k + 1] s = { s with woken := true, pending := s.pending + 1 } := by
  induction k with
  | zero => simp [Function.iterate_one, wake, h]
  | succ m ih =>
      rw [Function.iterate_succ_apply' wake (m + 1) s, ih]
      simp [wake]

theorem midStep_completed (t : WakerState) (a : MidAction) :
    (midStep t a).completed = t.completed := by
  cases a with
  | wakeM => exact wake_completed t
  | cloneM => rfl
  | dropM => rfl

theorem midStep_polls (t : WakerState) (a : MidAction) :
    (midStep t a).polls = t.polls := by
  cases a with
  | wakeM => exact wake_polls t
  | cloneM => rfl
  | dropM => rfl

theorem midStep_pending_le (t : WakerState) (a : MidAction) :
    t.pending ≤ (midStep t a).pending := by
  cases a with
  | wakeM => exact wake_pending_le t
  | cloneM => exact le_refl _
  | dropM => exact le_refl _

theorem foldl_midStep_completed (l : List MidAction) (t : WakerState) :
    (List.foldl midStep t l).completed = t.completed := by
  induction l generalizing t with
  | nil => rfl
  | cons a l ih => rw [List.foldl_cons, ih, midStep_completed]

theorem foldl_midStep_polls (l : List MidAction) (t : WakerState) :
    (List.foldl midStep t l).polls = t.polls := by
  induction l generalizing t with
  | nil => rfl
  | cons a l ih => rw [List.foldl_cons, ih, midStep_polls]

theorem foldl_midStep_pending_le (l : List MidAction) (t : WakerState) :
    t.pending ≤ (List.foldl midStep t l).pending := by
  induction l generalizing t with
  | nil => exact le_refl _
  | cons a l ih =>
      rw [List.foldl_cons]
      exact le_trans (midStep_pending_le t a) (ih (midStep t a))

theorem foldl_midStep_wake_pending (l : List MidAction) (t : WakerState)
    (hw : t.woken = false) (hm : MidAction.wakeM ∈ l) :
    t.pending + 1 ≤ (List.foldl midStep t l).pending := by
  induction l generalizing t with
  | nil => cases hm
  | cons a l ih =>
      rw [List.foldl_cons]
      cases a with
      | wakeM =>
          have h1 : (midStep t MidAction.wakeM).pending = t.pending + 1 := by
            simp [midStep, wake, hw]
          have h2 := foldl_midStep_pending_le l (midStep t MidAction.wakeM)
          omega
      | cloneM =>
          have hm2 : MidAction.wakeM ∈ l := by
            rcases List.mem_cons.mp hm with h1 | h1
            · exact absurd h1 (by decide)
            · exact h1
          exact ih (cloneW t) hw hm2
      | dropM =>
          have hm2 : MidAction.wakeM ∈ l := by
            rcases List.mem_cons.mp hm with h1 | h1
            · exact absurd h1 (by decide)
            · exact h1
          exact ih (derefW t) hw hm2

theorem pollWithQtWaker_polls (mid : List MidAction) (res : PollResult)
    (t : WakerState) : (pollWithQtWaker mid res t).1.polls = t.polls + 1 := by
  show (List.foldl midStep (cloneW t) mid).polls + 1 = t.polls + 1
  rw [foldl_midStep_polls]
  rfl

theorem pollWithQtWaker_completed (mid : List MidAction) (res : PollResult)
    (t : WakerState) : (pollWithQtWaker mid res t).1.completed = t.completed := by
  show (List.foldl midStep (cloneW t) mid).completed = t.completed
  rw [foldl_midStep_completed]
  rfl

theorem pollWithQtWaker_pending_le (mid : List MidAction) (res : PollResult)
    (t : WakerState) : t.pending ≤ (pollWithQtWaker mid res t).1.pending :=
  foldl_midStep_pending_le mid (cloneW t)

theorem pollWithQtWaker_wake_pending (mid : List MidAction) (res : PollResult)
    (t : WakerState) (hw : t.woken = false) (hm : MidAction.wakeM ∈ mid) :
    t.pending + 1 ≤ (pollWithQtWaker mid res t).1.pending :=
  foldl_midStep_wake_pending mid (cloneW t) hw hm

theorem pollReact_polls (pr : WakerState × Bool) :
    (pollReact pr).polls = pr.1.polls := by
  unfold pollReact; split <;> rfl

theorem pollReact_pending (pr : WakerState × Bool) :
    (pollReact pr).pending = pr.1.pending := by
  unfold pollReact; split <;> rfl

theorem pollReact_completed (pr : WakerState × Bool) :
    (pollReact pr).completed = (pr.2 || pr.1.completed) := by
  unfold pollReact; split
  · next h => simp [h, derefW]
  · next h => simp [Bool.eq_false_iff.mpr h]

theorem customEvent_not_completed (mid : List MidAction) (res : PollResult)
    (t : WakerState) (hp : t.pending ≠ 0) (hc : t.completed = false) :
    customEvent mid res t =
      pollReact (pollWithQtWaker mid res
        { t with pending := t.pending - 1, woken := false }) := by
  unfold customEvent
  rw [if_neg hp, if_neg (by simp [hc])]

theorem customEvent_polls_incr (mid : List MidAction) (res : PollResult)
    (t : WakerState) (hp : t.pending ≠ 0) (hc : t.completed = false) :
    (customEvent mid res t).polls = t.polls + 1 := by
  rw [customEvent_not_completed mid res t hp hc, pollReact_polls,
    pollWithQtWaker_polls]

theorem customEvent_completed_iff (mid : List MidAction) (res : PollResult)
    (t : WakerState) (hp : t.pending ≠ 0) (hc : t.completed = false) :
    (customEvent mid res t).completed = res.isReady := by
  rw [customEvent_not_completed mid res t hp hc, pollReact_completed]
  show (res.isReady ||
      (pollWithQtWaker mid res { t with pending := t.pending - 1, woken := false }).1.completed) =
    res.isReady
  rw [pollWithQtWaker_completed]
  simp [hc]

theorem customEvent_wake_pending (mid : List MidAction) (res : PollResult)
    (t : WakerState) (hp : t.pending ≠ 0) (hc : t.completed = false)
    (hm : MidAction.wakeM ∈ mid) :
    t.pending ≤ (customEvent mid res t).pending := by
  rw [customEvent_not_completed mid res t hp hc, pollReact_pending]
  have h1 := pollWithQtWaker_wake_pending mid res
    { t with pending := t.pending - 1, woken := false } rfl hm
  simp only at h1
  omega

/-! ### Claim theorems -/

/-- Claim C1: wake coalescing — starting from a shim whose `woken` flag is
clear and with no event queued, any sequence of `n ≥ 1` calls to
`Waker::wake` posts exactly one notification (the first call; a wake that
finds `woken` set posts nothing, witnessed by `wake` being a no-op on the
resulting state), and delivering that notification performs exactly one poll
of the task, not `n`, leaving no further notification queued. -/
theorem wake_coalescing (s : WakerState) (n : Nat) (res : PollResult)
    (hw : s.woken = false) (hn : 1 ≤ n) (hp : s.pending = 0)
    (hc : s.completed = false) :
    (wake^[n] s).pending = 1 ∧ (wake^[n] s).woken = true ∧
    wake (wake^[n] s) = wake^[n] s ∧
    (customEvent [] res (wake^[n] s)).polls = s.polls + 1 ∧
    (customEvent [] res (wake^[n] s)).pending = 0 := by
  obtain ⟨k, rfl⟩ : ∃ k, n = k + 1 := ⟨n - 1, by omega⟩
  rw [wake_iterate s hw k]
  refine ⟨by simp [hp], rfl, wake_of_woken _ rfl, ?_, ?_⟩
  · rw [customEvent_polls_incr]
    · simp [hp]
    · exact hc
  · have h2 : ({ s with woken := true, pending := s.pending + 1 } :
        WakerState).pending ≠ 0 := by simp
    have h3 : ({ s with woken := true, pending := s.pending + 1 } :
        WakerState).completed = false := hc
    rw [customEvent_not_completed [] res
        { s with woken := true, pending := s.pending + 1 } h2 h3,
      pollReact_pending]
    show s.pending + 1 - 1 = 0
    omega

/-- Claim C1 witness: two consecutive wakes on the idle sample state coalesce
into a single notification and a single subsequent poll. -/
theorem wake_coalescing_witness :
    (wake^[2] sampleIdle).pending = 1 ∧ (wake^[2] sampleIdle).woken = true ∧
    wake (wake^[2] sampleIdle) = wake^[2] sampleIdle ∧
    (customEvent [] PollResult.pending (wake^[2] sampleIdle)).polls =
      sampleIdle.polls + 1 ∧
    (customEvent [] PollResult.pending (wake^[2] sampleIdle)).pending = 0 :=
  wake_coalescing sampleIdle 2 PollResult.pending rfl (by decide) rfl rfl

/-- Claim C2 (code bug, exhibited): a future that clones its context waker and
returns `Ready` on the very first synchronous poll inside `execute_async`.
`execute_async` discards the poll result, so `completed` stays `false`; when
the stale cloned handle is woken afterwards, `customEvent` finds
`completed = false` and polls the task a second time — after it already
returned `Ready` — contradicting the source's own comment that the future
must not be polled after `Poll::Ready`. -/
theorem post_completion_poll_after_ready :
    (executeAsync [MidAction.cloneM] PollResult.ready).readySeen = true ∧
    (executeAsync [MidAction.cloneM] PollResult.ready).polls = 1 ∧
    (executeAsync [MidAction.cloneM] PollResult.ready).completed = false ∧
    (run (executeAsync [MidAction.cloneM] PollResult.ready)
        [Step.wakeRefS, Step.deliver [] PollResult.pending]).polls = 2 := by
  decide

/-- Claim C4 (code bug, exhibited): a future whose very first synchronous poll
inside `execute_async` returns `Ready`. The poll result is discarded, so the
shim keeps its own reference (`ref = 1`), `completed` stays `false`, nothing
is queued or woken, and the boxed task is never deallocated — the shim and
task leak instead of being destroyed on completion. -/
theorem completion_leak :
    (executeAsync [] PollResult.ready).readySeen = true ∧
    (executeAsync [] PollResult.ready).completed = false ∧
    (executeAsync [] PollResult.ready).ref = 1 ∧
    (executeAsync [] PollResult.ready).deallocs = 0 ∧
    (executeAsync [] PollResult.ready).destroyed = false ∧
    (executeAsync [] PollResult.ready).pending = 0 ∧
    (executeAsync [] PollResult.ready).woken = false := by
  decide

/-- Claim C3: no missed wakeup — the handler clears `woken` before checking
`completed` and polling, so if at least one `Waker::wake` arrives while the
poll is in progress, a fresh notification is queued when the handler returns
(never silently dropped), and — the poll having returned `Pending` —
delivering that notification performs a subsequent poll. -/
theorem no_missed_wakeup (s : WakerState) (mid mid2 : List MidAction)
    (res2 : PollResult) (hc : s.completed = false) (hp : 1 ≤ s.pending)
    (hm : MidAction.wakeM ∈ mid) :
    1 ≤ (customEvent mid PollResult.pending s).pending ∧
    (customEvent mid2 res2 (customEvent mid PollResult.pending s)).polls =
      (customEvent mid PollResult.pending s).polls + 1 := by
  have hp0 : s.pending ≠ 0 := by omega
  have h1 : 1 ≤ (customEvent mid PollResult.pending s).pending :=
    le_trans hp (customEvent_wake_pending mid PollResult.pending s hp0 hc hm)
  refine ⟨h1, ?_⟩
  exact customEvent_polls_incr mid2 res2 _ (by omega)
    (customEvent_completed_iff mid PollResult.pending s hp0 hc)

/-- Claim C3 witness: a wake arriving during the poll of the busy sample state
leaves a queued notification whose delivery polls again. -/
theorem no_missed_wakeup_witness :
    1 ≤ (customEvent [MidAction.wakeM] PollResult.pending sampleBusy).pending ∧
    (customEvent [] PollResult.pending
        (customEvent [MidAction.wakeM] PollResult.pending sampleBusy)).polls =
      (customEvent [MidAction.wakeM] PollResult.pending sampleBusy).polls + 1 :=
  no_missed_wakeup sampleBusy [MidAction.wakeM] [] PollResult.pending rfl
    (by decide) (by decide)

/-- Claim C10 counterexample: a poll that returns `Pending` during which the
future stores one clone of its waker (the normal way a pending future arranges
to be woken) leaves the reference count one higher than before the poll — on
the idle sample state, `ref` goes from 2 to 3 — refuting the claim's clause
that a `Pending` poll leaves the count equal to its value before the poll. -/
theorem refcount_pending_poll_counterexample :
    (pollWithQtWaker [MidAction.cloneM] PollResult.pending sampleIdle).1.ref = 3 ∧
    sampleIdle.ref = 2 := by
  decide

/-- Claim C10 (amended): each vtable operation changes the count by its
contract amount — clone `+1` (touching nothing else of the shim), drop `-1`,
wake-by-value wakes then `-1`, wake-by-ref `0` — and `poll_with_qt_waker`
increments the count by one before polling and releases exactly that increment
when the context waker is dropped: its result count is the count after the
future's own mid-poll waker operations, minus one; in particular a poll during
which the future performs no waker operation of its own leaves the count
unchanged. -/
theorem refcount_balance (s : WakerState) (res : PollResult)
    (mid : List MidAction) :
    (cloneW s).ref = s.ref + 1 ∧
    (cloneW s).woken = s.woken ∧ (cloneW s).pending = s.pending ∧
    (derefW s).ref = s.ref - 1 ∧
    (derefW (wake s)).ref = s.ref - 1 ∧
    (wake s).ref = s.ref ∧
    (pollWithQtWaker mid res s).1.ref =
      (List.foldl midStep (cloneW s) mid).ref - 1 ∧
    (pollWithQtWaker [] res s).1.ref = s.ref := by
  refine ⟨rfl, rfl, rfl, rfl, ?_, wake_ref s, rfl, ?_⟩
  · show (wake s).ref - 1 = s.ref - 1
    rw [wake_ref]
  · show (cloneW s).ref - 1 = s.ref
    show s.ref + 1 - 1 = s.ref
    omega

/-! ### Helper lemmas about the signal-wait future -/

theorem disconnect_all_id (l : List Registration) (h : Nat)
    (hall : ∀ x ∈ l, x.id = h) :
    List.filter (fun x => x.id != h) l = [] := by
  induction l with
  | nil => rfl
  | cons a l ih =>
      have ha : a.id = h := hall a (List.mem_cons_self a l)
      have hrest : ∀ x ∈ l, x.id = h := fun x hx => hall x (List.mem_cons_of_mem a hx)
      simp [List.filter, ha, ih hrest]

theorem worldInv_step {P : Type} (w : World P) (op : CFOp P)
    (hI : WorldInv w) (hv : op.isPoll = true → w.readyReturned = false) :
    WorldInv (cfStep w op) := by
  obtain ⟨hb, hh⟩ := hI
  obtain ⟨fut, reg, rr, bad⟩ := w
  obtain ⟨nid, live⟩ := reg
  have hb2 : bad = false := hb
  subst hb2
  cases op with
  | pollOp wk =>
      have hrr : rr = false := hv rfl
      subst hrr
      cases fut with
      | none => exact ⟨rfl, hh⟩
      | some st =>
          cases st with
          | init sd sg =>
              have hl : live = [] := hh
              subst hl
              refine ⟨rfl, ?_, ?_⟩
              · exact List.cons_ne_nil _ _
              · intro x hx
                have h2 : x = { id := nid, sender := sd, signal := sg } :=
                  List.mem_singleton.mp hx
                rw [h2]
                rfl
          | started h wk0 => exact ⟨rfl, hh⟩
          | finished v => exact ⟨rfl, hh, rfl⟩
          | invalid => exact Bool.noConfusion (And.right hh)
  | emitOp v =>
      cases fut with
      | none => exact ⟨rfl, hh⟩
      | some st =>
          cases st with
          | init sd sg =>
              have hl : live = [] := hh
              subst hl
              exact ⟨rfl, rfl⟩
          | started h wk0 =>
              obtain ⟨hne, hall⟩ : live ≠ [] ∧ ∀ x ∈ live, x.id = h := hh
              cases live with
              | nil => exact absurd rfl hne
              | cons a l => exact ⟨rfl, disconnect_all_id (a :: l) h hall⟩
          | finished v0 =>
              have hl : live = [] := hh
              subst hl
              exact ⟨rfl, rfl⟩
          | invalid =>
              obtain ⟨hl, hr⟩ : live = [] ∧ rr = true := hh
              subst hl
              exact ⟨rfl, rfl, hr⟩
  | dropOp =>
      cases fut with
      | none => exact ⟨rfl, hh⟩
      | some st =>
          cases st with
          | init sd sg => exact ⟨rfl, hh⟩
          | started h wk0 =>
              obtain ⟨hne, hall⟩ : live ≠ [] ∧ ∀ x ∈ live, x.id = h := hh
              exact ⟨rfl, disconnect_all_id live h hall⟩
          | finished v0 => exact ⟨rfl, hh⟩
          | invalid =>
              obtain ⟨hl, hr⟩ : live = [] ∧ rr = true := hh
              exact ⟨rfl, hl⟩

theorem worldInv_run {P : Type} (w : World P) (ops : List (CFOp P))
    (hI : WorldInv w) (hv : validFrom w ops = true) :
    WorldInv (cfRun w ops) := by
  induction ops generalizing w with
  | nil => exact hI
  | cons op rest ih =>
      have hv2 := hv
      unfold validFrom at hv2
      rw [Bool.and_eq_true] at hv2
      obtain ⟨h1, h2⟩ := hv2
      have hstep : WorldInv (cfStep w op) := by
        refine worldInv_step w op hI ?_
        intro hop
        rw [hop] at h1
        simpa using h1
      exact ih (cfStep w op) hstep h2

/-- Claim C5: signal-wait exactly-once — when the callback fires while the
future is `Started`, the state is replaced by `Finished` with the payload
built from the signal's arguments, the registration is disconnected before
the captured waker is woken (the effect list is ordered), and the next poll
returns `Ready` with exactly that payload. On a full lifecycle trace, one
poll followed by one emission leaves the future resolved with that payload
and the registration gone, and a second emission after completion changes
nothing — no re-resolution. -/
theorem signal_wait_exactly_once (P : Type) (sd sg h w w2 : Nat)
    (reg : Registry) (v v2 : P) :
    cfApply (CFState.started h w) reg v =
      (CFState.finished v, reg.disconnect h,
       [Effect.disconnected h, Effect.woke w], false) ∧
    (cfPoll (CFState.finished v : CFState P) reg w2).2.2.1 = CFPoll.ready v ∧
    cfRun (initWorld P sd sg 0) [CFOp.pollOp w, CFOp.emitOp v] =
      { fut := some (CFState.finished v), reg := { nextId := 1, live := [] },
        readyReturned := false, bad := false } ∧
    cfRun (initWorld P sd sg 0) [CFOp.pollOp w, CFOp.emitOp v, CFOp.emitOp v2] =
      cfRun (initWorld P sd sg 0) [CFOp.pollOp w, CFOp.emitOp v] :=
  ⟨rfl, rfl, rfl, rfl⟩

/-- Claim C6: signal-wait first poll — polling in `Init` performs exactly one
`connect` for the `(sender, signal)` pair (the registry gains exactly that one
registration and its counter advances by one), stores the handle and the waker
current at that poll, moves to `Started`, and returns `Pending`; polling again
while `Started` (with any other current waker `w2`) returns `Pending`, leaves
the state — handle and stored waker — and the registry untouched. -/
theorem first_poll_registers_once (P : Type) (sd sg h w w2 : Nat)
    (reg : Registry) :
    cfPoll (CFState.init sd sg : CFState P) reg w =
      (CFState.started reg.nextId w,
       { nextId := reg.nextId + 1,
         live := { id := reg.nextId, sender := sd, signal := sg } :: reg.live },
       CFPoll.pending, false) ∧
    cfPoll (CFState.started h w : CFState P) reg w2 =
      (CFState.started h w, reg, CFPoll.pending, false) :=
  ⟨rfl, rfl⟩

/-- Claim C7: early-drop unregisters — dropping the future while `Started`
runs `disconnect` on its handle synchronously in the destructor, after which
no live registration with that handle remains; dropping while `Init` or
`Finished` leaves the registry exactly as it was. -/
theorem early_drop_disconnects (P : Type) (sd sg h w : Nat) (reg : Registry)
    (v : P) :
    cfDrop (CFState.started h w : CFState P) reg = reg.disconnect h ∧
    ((cfDrop (CFState.started h w : CFState P) reg).live.all
        (fun x => x.id != h)) = true ∧
    cfDrop (CFState.init sd sg : CFState P) reg = reg ∧
    cfDrop (CFState.finished v) reg = reg := by
  refine ⟨rfl, ?_, rfl, rfl⟩
  rw [List.all_eq_true]
  intro x hx
  have hx2 : x ∈ List.filter (fun y => y.id != h) reg.live := hx
  exact (List.mem_filter.mp hx2).2

/-- Claim C8: the `Invalid` placeholder is never observable — on every
lifecycle trace from a fresh signal-wait future in which the future is not
polled again after a poll returned `Ready` (and the registry, as modelled,
invokes the callback only while a registration is live), no operation ever
reaches the `Invalid => unreachable` branch of `poll` or the `else`
unreachable branch of the slot's `apply`. -/
theorem invalid_never_observed (P : Type) (sd sg n : Nat) (ops : List (CFOp P))
    (hv : validFrom (initWorld P sd sg n) ops = true) :
    (cfRun (initWorld P sd sg n) ops).bad = false :=
  (worldInv_run (initWorld P sd sg n) ops ⟨rfl, rfl⟩ hv).1

/-- Claim C8 witness: a concrete valid trace — poll, signal emission, the
final poll that returns the payload, drop, and a late emission — never hits
an unreachable branch. -/
theorem invalid_never_observed_witness :
    validFrom (initWorld Nat 0 1 0)
      [CFOp.pollOp 5, CFOp.emitOp 7, CFOp.pollOp 6, CFOp.dropOp,
       CFOp.emitOp 8] = true ∧
    (cfRun (initWorld Nat 0 1 0)
      [CFOp.pollOp 5, CFOp.emitOp 7, CFOp.pollOp 6, CFOp.dropOp,
       CFOp.emitOp 8]).bad = false :=
  ⟨by decide, invalid_never_observed Nat 0 1 0
    [CFOp.pollOp 5, CFOp.emitOp 7, CFOp.pollOp 6, CFOp.dropOp,
     CFOp.emitOp 8] (by decide)⟩

end QtFuture
